import Mathlib

/-!
Shallow embedding of the venue conflict-detection and slot-suggestion engine
of vit-event-hub (`checkVenueConflict` and `generateSuggestedSlots` in the
conflict-check module).

Modelling conventions:
* JS `Date` values, which the source always compares via `getTime()` or the
  relational operators (numeric coercion), are modelled as `Int`
  (milliseconds since the epoch).
* The Supabase query inside `checkVenueConflict` (same venue, same calendar
  day, optional `excludeEventId`) is an external collaborator; its outcome,
  the `{ data, error }` pair, is passed in as an `Except Unit (List
  ConflictEvent)` argument.  `venueId` and `excludeEventId` only influence
  that query, so they do not appear as separate parameters.
* The working-hours bounds `dayStart = eventDate T09:00:00` and
  `dayEnd = eventDate T21:00:00` are passed as explicit `Int` parameters.
* `Array.prototype.sort` with comparator `(a, b) => a.start - b.start` is a
  stable sort by `start`; it is modelled by `List.insertionSort` with the
  relation `spanLE` (insertion before the first element with a
  greater-or-equal key is stable).
-/

/-- A row of the events query in `checkVenueConflict`; the field `end_time`
is the booking's end instant. -/
structure ConflictEvent where
  id : String
  event_name : String
  start_time : Int
  end_time : Int
  venue_id : String
  club_name : String
  deriving Repr, DecidableEq

/-- A suggested slot (`TimeSlot` in the source). -/
structure TimeSlot where
  start_time : Int
  end_time : Int
  available : Bool
  deriving Repr, DecidableEq

/-- The result shape of `checkVenueConflict` (`ConflictCheck` in the source). -/
structure ConflictCheck where
  hasConflict : Bool
  conflictingEvents : List ConflictEvent
  suggestedSlots : List TimeSlot
  deriving Repr, DecidableEq

/-- The `{start, end}` pair `generateSuggestedSlots` maps each event to
before sorting.  The source field `end` is named `stop` here because `end`
is reserved in Lean. -/
structure EventSpan where
  start : Int
  stop : Int
  deriving Repr, DecidableEq

/-- The sort key relation of `sortedEvents`: compare by start instant. -/
def spanLE (a b : EventSpan) : Prop := a.start ≤ b.start

instance : DecidableRel spanLE := fun a b => inferInstanceAs (Decidable (a.start ≤ b.start))

instance : IsTotal EventSpan spanLE := ⟨fun a b => Int.le_total a.start b.start⟩

instance : IsTrans EventSpan spanLE := ⟨fun _ _ _ h1 h2 => le_trans h1 h2⟩

/-- The `sortedEvents` computation of `generateSuggestedSlots`: map each
event to its `{start, end}` span, then stably sort by start instant. -/
def sortEvents (existingEvents : List ConflictEvent) : List EventSpan :=
  List.insertionSort spanLE
    (existingEvents.map fun event => { start := event.start_time, stop := event.end_time })

/-- "Check slot before first event" block of `generateSuggestedSlots`. -/
def beforeFirstSlots (dayStart eventDuration : Int) : List EventSpan → List TimeSlot
  | [] => []
  | firstEvent :: _ =>
    if dayStart + eventDuration ≤ firstEvent.start then
      [{ start_time := dayStart, end_time := dayStart + eventDuration, available := true }]
    else []

/-- "Check slots between events" loop of `generateSuggestedSlots`
(index `i` running over adjacent pairs of the sorted events). -/
def betweenSlots (eventDuration : Int) : List EventSpan → List TimeSlot
  | currentEvent :: nextEvent :: rest =>
    (if nextEvent.start - currentEvent.stop ≥ eventDuration then
      [{ start_time := currentEvent.stop, end_time := currentEvent.stop + eventDuration,
         available := true }]
    else [])
      ++ betweenSlots eventDuration (nextEvent :: rest)
  | _ => []

/-- "Check slot after last event" block of `generateSuggestedSlots`. -/
def afterLastSlots (dayEnd eventDuration : Int) (sortedEvents : List EventSpan) : List TimeSlot :=
  match sortedEvents.getLast? with
  | none => []
  | some lastEvent =>
    if lastEvent.stop + eventDuration ≤ dayEnd then
      [{ start_time := lastEvent.stop, end_time := lastEvent.stop + eventDuration,
         available := true }]
    else []

/-- "If no existing events, suggest the requested time if within working
hours" block of `generateSuggestedSlots` (it pushes the window-opening slot). -/
def emptyFallbackSlots (dayStart dayEnd requestedStart requestedEnd : Int)
    (sortedEvents : List EventSpan) : List TimeSlot :=
  if sortedEvents.isEmpty then
    if requestedStart ≥ dayStart ∧ requestedEnd ≤ dayEnd then
      [{ start_time := dayStart, end_time := dayStart + (requestedEnd - requestedStart),
         available := true }]
    else []
  else []

/-- The full `suggestions` array of `generateSuggestedSlots` after all four
push blocks, in source push order, before the final window filter and
`slice(0, 3)`. -/
def suggestionCandidates (dayStart dayEnd requestedStart requestedEnd : Int)
    (existingEvents : List ConflictEvent) : List TimeSlot :=
  let eventDuration := requestedEnd - requestedStart
  let sortedEvents := sortEvents existingEvents
  beforeFirstSlots dayStart eventDuration sortedEvents
    ++ betweenSlots eventDuration sortedEvents
    ++ afterLastSlots dayEnd eventDuration sortedEvents
    ++ emptyFallbackSlots dayStart dayEnd requestedStart requestedEnd sortedEvents

/-- The final filter of `generateSuggestedSlots`: keep a slot only when
`start >= dayStart && end <= dayEnd`. -/
def withinWorkingHours (dayStart dayEnd : Int) (slot : TimeSlot) : Bool :=
  decide (slot.start_time ≥ dayStart) && decide (slot.end_time ≤ dayEnd)

/-- `generateSuggestedSlots(venueId, eventDate, requestedStart, requestedEnd,
existingEvents)`; `dayStart`/`dayEnd` stand for 09:00/21:00 of `eventDate`. -/
def generateSuggestedSlots (dayStart dayEnd requestedStart requestedEnd : Int)
    (existingEvents : List ConflictEvent) : List TimeSlot :=
  ((suggestionCandidates dayStart dayEnd requestedStart requestedEnd existingEvents).filter
    (withinWorkingHours dayStart dayEnd)).take 3

/-- The inline overlap condition of `checkVenueConflict` (the four-case
disjunction deciding whether the new event and an existing event overlap). -/
def overlapsCheck (newStart newEnd existingStart existingEnd : Int) : Bool :=
  (decide (newStart ≥ existingStart) && decide (newStart < existingEnd)) ||
  (decide (newEnd > existingStart) && decide (newEnd ≤ existingEnd)) ||
  (decide (newStart ≤ existingStart) && decide (newEnd ≥ existingEnd)) ||
  (decide (newStart ≥ existingStart) && decide (newEnd ≤ existingEnd))

/-- `checkVenueConflict(venueId, startTime, endTime, excludeEventId?)`.
`newStart`/`newEnd` are the parsed request instants, `fetched` is the
outcome of the same-day same-venue events query (`error` branch when the
query fails).  On error the source logs to the console and returns
`{ hasConflict: false, conflictingEvents: [], suggestedSlots: [] }`. -/
def checkVenueConflict (newStart newEnd dayStart dayEnd : Int)
    (fetched : Except Unit (List ConflictEvent)) : ConflictCheck :=
  match fetched with
  | .error _ =>
    { hasConflict := false, conflictingEvents := [], suggestedSlots := [] }
  | .ok existingEvents =>
    let conflictingEvents := existingEvents.filter fun event =>
      overlapsCheck newStart newEnd event.start_time event.end_time
    let suggestedSlots :=
      if conflictingEvents.length > 0 then
        generateSuggestedSlots dayStart dayEnd newStart newEnd existingEvents
      else []
    { hasConflict := decide (conflictingEvents.length > 0),
      conflictingEvents := conflictingEvents,
      suggestedSlots := suggestedSlots }

/-- Separation of spans: the first ends no later than the second starts. -/
def spanSep (a b : EventSpan) : Prop := a.stop ≤ b.start

/-! ### Helper lemmas -/

/-- For a proper request interval and a proper existing interval, the source's
four-case disjunction holds exactly when the half-open intervals intersect. -/
theorem overlapsCheck_eq_true_iff {newStart newEnd existingStart existingEnd : Int}
    (hreq : newStart < newEnd) (hex : existingStart < existingEnd) :
    overlapsCheck newStart newEnd existingStart existingEnd = true ↔
      (newStart < existingEnd ∧ existingStart < newEnd) := by
  simp only [overlapsCheck, Bool.or_eq_true, Bool.and_eq_true, decide_eq_true_eq]
  omega

theorem mem_sortEvents {existingEvents : List ConflictEvent} {sp : EventSpan} :
    sp ∈ sortEvents existingEvents ↔
      ∃ e, e ∈ existingEvents ∧ EventSpan.mk e.start_time e.end_time = sp := by
  simp [sortEvents, List.mem_insertionSort, List.mem_map]

theorem sortEvents_proper {existingEvents : List ConflictEvent}
    (hprop : ∀ e ∈ existingEvents, e.start_time < e.end_time) :
    ∀ sp ∈ sortEvents existingEvents, sp.start < sp.stop := by
  intro sp hsp
  rcases mem_sortEvents.mp hsp with ⟨e, he, rfl⟩
  exact hprop e he

/-- Sorting yields a list sorted by start instant. -/
theorem sortEvents_sorted (existingEvents : List ConflictEvent) :
    List.Pairwise spanLE (sortEvents existingEvents) :=
  List.sorted_insertionSort spanLE _

/-- If the existing events are proper and pairwise non-overlapping, the sorted
spans are pairwise separated: each ends no later than any later one starts. -/
theorem sortEvents_sep {existingEvents : List ConflictEvent}
    (hprop : ∀ e ∈ existingEvents, e.start_time < e.end_time)
    (hdisj : List.Pairwise (fun a b : ConflictEvent =>
      ¬(a.start_time < b.end_time ∧ b.start_time < a.end_time)) existingEvents) :
    List.Pairwise spanSep (sortEvents existingEvents) := by
  have hmap : List.Pairwise (fun a b : EventSpan => ¬(a.start < b.stop ∧ b.start < a.stop))
      (existingEvents.map fun e => EventSpan.mk e.start_time e.end_time) :=
    List.pairwise_map.mpr hdisj
  have hnov : List.Pairwise (fun a b : EventSpan => ¬(a.start < b.stop ∧ b.start < a.stop))
      (sortEvents existingEvents) := by
    rw [sortEvents]
    exact (List.Perm.pairwise_iff (fun hx hc => hx ⟨hc.2, hc.1⟩)
      (List.perm_insertionSort spanLE _)).mpr hmap
  have hsorted := sortEvents_sorted existingEvents
  have hproper := sortEvents_proper hprop
  refine List.Pairwise.imp_of_mem ?_ (hnov.and hsorted)
  intro a b ha hb hab
  have hbp := hproper b hb
  rcases hab with ⟨hno, hle⟩
  simp only [spanLE] at hle
  simp only [spanSep]
  by_contra hlt
  exact hno ⟨by omega, by omega⟩

theorem betweenSlots_shape (d : Int) :
    ∀ (l : List EventSpan), ∀ s ∈ betweenSlots d l,
      ∃ cur, cur ∈ l ∧ s.start_time = cur.stop ∧ s.end_time = cur.stop + d := by
  intro l
  induction l with
  | nil => intro s hs; simp [betweenSlots] at hs
  | cons x t ih =>
    cases t with
    | nil => intro s hs; simp [betweenSlots] at hs
    | cons y rest =>
      intro s hs
      simp only [betweenSlots] at hs
      rcases List.mem_append.mp hs with h1 | h2
      · by_cases hg : y.start - x.stop ≥ d
        · rw [if_pos hg] at h1
          simp at h1
          subst h1
          exact ⟨x, List.mem_cons_self _ _, rfl, rfl⟩
        · rw [if_neg hg] at h1
          simp at h1
      · rcases ih s h2 with ⟨cur, hcur, h3, h4⟩
        exact ⟨cur, List.mem_cons_of_mem _ hcur, h3, h4⟩

/-- Every slot pushed by the between-events loop of a separated, proper event
list touches no event: each event either ends before the slot starts or
starts after the slot ends. -/
theorem betweenSlots_free (d : Int) :
    ∀ (l : List EventSpan), List.Pairwise spanSep l → (∀ e ∈ l, e.start < e.stop) →
      ∀ s ∈ betweenSlots d l, ∀ e ∈ l, e.stop ≤ s.start_time ∨ s.end_time ≤ e.start := by
  intro l
  induction l with
  | nil => intro _ _ s hs; simp [betweenSlots] at hs
  | cons x t ih =>
    cases t with
    | nil => intro _ _ s hs; simp [betweenSlots] at hs
    | cons y rest =>
      intro hsep hprop s hs e he
      have hx : ∀ b ∈ y :: rest, spanSep x b := (List.pairwise_cons.mp hsep).1
      simp only [betweenSlots] at hs
      rcases List.mem_append.mp hs with h1 | h2
      · have hg : y.start - x.stop ≥ d := by
          by_contra hg
          rw [if_neg hg] at h1
          simp at h1
        rw [if_pos hg] at h1
        simp at h1
        subst h1
        rcases List.mem_cons.mp he with rfl | he'
        · exact Or.inl (le_refl _)
        · refine Or.inr ?_
          rcases List.mem_cons.mp he' with rfl | he''
          · simp only
            omega
          · have hy : spanSep y e := (List.pairwise_cons.mp hsep.of_cons).1 e he''
            have hyp := hprop y (List.mem_cons_of_mem _ (List.mem_cons_self _ _))
            simp only [spanSep] at hy
            simp only
            omega
      · rcases List.mem_cons.mp he with rfl | he'
        · rcases betweenSlots_shape d _ s h2 with ⟨cur, hcur, hst, _⟩
          have h3 := hx cur hcur
          have hcp := hprop cur (List.mem_cons_of_mem _ hcur)
          simp only [spanSep] at h3
          exact Or.inl (by omega)
        · exact ih hsep.of_cons (fun e' he'' => hprop e' (List.mem_cons_of_mem _ he'')) s h2 e he'

/-- Every slot pushed by the before-first block ends no later than any event
of a separated, proper event list starts. -/
theorem beforeFirstSlots_free (dayStart d : Int) (l : List EventSpan)
    (hsep : List.Pairwise spanSep l) (hprop : ∀ e ∈ l, e.start < e.stop) :
    ∀ s ∈ beforeFirstSlots dayStart d l, ∀ e ∈ l, s.end_time ≤ e.start := by
  cases l with
  | nil => intro s hs; simp [beforeFirstSlots] at hs
  | cons first rest =>
    intro s hs e he
    simp only [beforeFirstSlots] at hs
    have hg : dayStart + d ≤ first.start := by
      by_contra hg
      rw [if_neg hg] at hs
      simp at hs
    rw [if_pos hg] at hs
    simp at hs
    subst hs
    rcases List.mem_cons.mp he with rfl | he'
    · simpa using hg
    · have h1 := (List.pairwise_cons.mp hsep).1 e he'
      have h2 := hprop first (List.mem_cons_self _ _)
      simp only [spanSep] at h1
      simp only
      omega

theorem stop_le_getLast :
    ∀ (l : List EventSpan) (last : EventSpan), List.Pairwise spanSep l →
      (∀ e ∈ l, e.start < e.stop) → l.getLast? = some last →
      ∀ e ∈ l, e.stop ≤ last.stop := by
  intro l
  induction l with
  | nil => intro last _ _ h; simp at h
  | cons x t ih =>
    cases t with
    | nil =>
      intro last _ _ hlast e he
      simp at hlast he
      subst hlast
      subst he
      exact le_refl _
    | cons y rest =>
      intro last hsep hprop hlast e he
      rw [List.getLast?_cons_cons] at hlast
      rcases List.mem_cons.mp he with rfl | he'
      · have hlmem : last ∈ y :: rest := List.mem_of_getLast?_eq_some hlast
        have h1 := (List.pairwise_cons.mp hsep).1 last hlmem
        have h2 := hprop last (List.mem_cons_of_mem _ hlmem)
        simp only [spanSep] at h1
        omega
      · exact ih last hsep.of_cons (fun e' h => hprop e' (List.mem_cons_of_mem _ h)) hlast e he'

/-- Every slot pushed by the after-last block of a separated, proper event
list starts no earlier than any event ends. -/
theorem afterLastSlots_free (dayEnd d : Int) (l : List EventSpan)
    (hsep : List.Pairwise spanSep l) (hprop : ∀ e ∈ l, e.start < e.stop) :
    ∀ s ∈ afterLastSlots dayEnd d l, ∀ e ∈ l, e.stop ≤ s.start_time := by
  intro s hs e he
  cases hl : l.getLast? with
  | none =>
    simp only [afterLastSlots, hl] at hs
    simp at hs
  | some last =>
    simp only [afterLastSlots, hl] at hs
    have hg : last.stop + d ≤ dayEnd := by
      by_contra hg
      rw [if_neg hg] at hs
      simp at hs
    rw [if_pos hg] at hs
    simp at hs
    subst hs
    have h1 := stop_le_getLast l last hsep hprop hl e he
    simpa using h1

theorem beforeFirstSlots_dur (dayStart d : Int) (l : List EventSpan) :
    ∀ s ∈ beforeFirstSlots dayStart d l, s.end_time = s.start_time + d := by
  cases l with
  | nil => intro s hs; simp [beforeFirstSlots] at hs
  | cons first rest =>
    intro s hs
    simp only [beforeFirstSlots] at hs
    split at hs
    · simp at hs; subst hs; simp
    · simp at hs

theorem betweenSlots_dur (d : Int) (l : List EventSpan) :
    ∀ s ∈ betweenSlots d l, s.end_time = s.start_time + d := by
  intro s hs
  rcases betweenSlots_shape d l s hs with ⟨cur, _, h1, h2⟩
  omega

theorem afterLastSlots_dur (dayEnd d : Int) (l : List EventSpan) :
    ∀ s ∈ afterLastSlots dayEnd d l, s.end_time = s.start_time + d := by
  intro s hs
  cases hl : l.getLast? with
  | none => simp only [afterLastSlots, hl] at hs; simp at hs
  | some last =>
    simp only [afterLastSlots, hl] at hs
    split at hs
    · simp at hs; subst hs; simp
    · simp at hs

theorem emptyFallbackSlots_dur (dayStart dayEnd requestedStart requestedEnd : Int)
    (l : List EventSpan) :
    ∀ s ∈ emptyFallbackSlots dayStart dayEnd requestedStart requestedEnd l,
      s.end_time = s.start_time + (requestedEnd - requestedStart) := by
  intro s hs
  simp only [emptyFallbackSlots] at hs
  split at hs
  · split at hs
    · simp at hs; subst hs; simp
    · simp at hs
  · simp at hs

/-- Every candidate slot, before the final filter and truncation, lasts
exactly the requested duration. -/
theorem suggestionCandidates_dur (dayStart dayEnd requestedStart requestedEnd : Int)
    (existingEvents : List ConflictEvent) :
    ∀ s ∈ suggestionCandidates dayStart dayEnd requestedStart requestedEnd existingEvents,
      s.end_time = s.start_time + (requestedEnd - requestedStart) := by
  intro s hs
  simp only [suggestionCandidates, List.mem_append] at hs
  rcases hs with ((h1 | h2) | h3) | h4
  · exact beforeFirstSlots_dur _ _ _ s h1
  · exact betweenSlots_dur _ _ s h2
  · exact afterLastSlots_dur _ _ _ s h3
  · exact emptyFallbackSlots_dur _ _ _ _ _ s h4

/-! ### Claims -/

/-- C1, counterexample: with proper bookings [9,20) and [10,11) and proper
request [9,10), `generateSuggestedSlots` returns the single slot [11,12),
which overlaps the booking [9,20) under `aStart < bEnd AND bStart < aEnd`
(11 < 20 and 9 < 12).  The slot offered after the last-starting booking can
overlap an earlier-starting booking that ends later, so the non-overlap
invariant fails as stated. -/
theorem generateSuggestedSlots_overlap_cex :
    generateSuggestedSlots 9 21 9 10
        [⟨"a", "A", 9, 20, "v", "c"⟩, ⟨"b", "B", 10, 11, "v", "c"⟩] = [⟨11, 12, true⟩] ∧
      ((9 : Int) < 10 ∧ (9 : Int) < 20 ∧ (10 : Int) < 11) ∧
      ((11 : Int) < 20 ∧ (9 : Int) < 12) := by
  decide

/-- C1, amended: if, in addition to the request and every booking being
proper, the existing bookings are pairwise non-overlapping, then every slot
returned by `generateSuggestedSlots` overlaps no booking in the input list
under the predicate `aStart < bEnd AND bStart < aEnd`. -/
theorem generateSuggestedSlots_nonoverlap (dayStart dayEnd requestedStart requestedEnd : Int)
    (existingEvents : List ConflictEvent)
    (hreq : requestedStart < requestedEnd)
    (hprop : ∀ e ∈ existingEvents, e.start_time < e.end_time)
    (hdisj : List.Pairwise (fun a b : ConflictEvent =>
      ¬(a.start_time < b.end_time ∧ b.start_time < a.end_time)) existingEvents) :
    ∀ slot ∈ generateSuggestedSlots dayStart dayEnd requestedStart requestedEnd existingEvents,
      ∀ e ∈ existingEvents,
        ¬(slot.start_time < e.end_time ∧ e.start_time < slot.end_time) := by
  intro slot hslot e he
  have hmem : slot ∈ suggestionCandidates dayStart dayEnd requestedStart requestedEnd
      existingEvents := List.mem_of_mem_filter (List.mem_of_mem_take hslot)
  have hsep := sortEvents_sep hprop hdisj
  have hproper := sortEvents_proper hprop
  have hespan : (⟨e.start_time, e.end_time⟩ : EventSpan) ∈ sortEvents existingEvents :=
    mem_sortEvents.mpr ⟨e, he, rfl⟩
  simp only [suggestionCandidates, List.mem_append] at hmem
  rcases hmem with ((h1 | h2) | h3) | h4
  · have hfree : slot.end_time ≤ e.start_time :=
      beforeFirstSlots_free _ _ _ hsep hproper slot h1 ⟨e.start_time, e.end_time⟩ hespan
    omega
  · have hfree : e.end_time ≤ slot.start_time ∨ slot.end_time ≤ e.start_time :=
      betweenSlots_free _ _ hsep hproper slot h2 ⟨e.start_time, e.end_time⟩ hespan
    omega
  · have hfree : e.end_time ≤ slot.start_time :=
      afterLastSlots_free _ _ _ hsep hproper slot h3 ⟨e.start_time, e.end_time⟩ hespan
    omega
  · cases hq : sortEvents existingEvents with
    | nil => rw [hq] at hespan; simp at hespan
    | cons a t =>
      rw [hq] at h4
      simp [emptyFallbackSlots] at h4

/-- C1, witness for the amended theorem: for request [11,13) and the single
proper booking [10,12), the suggester returns exactly the slot [12,14), and
that slot does not overlap the booking. -/
theorem generateSuggestedSlots_nonoverlap_witness :
    generateSuggestedSlots 9 21 11 13 [⟨"a", "A", 10, 12, "v", "c"⟩] = [⟨12, 14, true⟩] ∧
      ¬((12 : Int) < 12 ∧ (10 : Int) < 14) :=
  ⟨by decide,
    generateSuggestedSlots_nonoverlap 9 21 11 13 [⟨"a", "A", 10, 12, "v", "c"⟩]
      (by decide) (by decide) (by decide) ⟨12, 14, true⟩ (by decide)
      ⟨"a", "A", 10, 12, "v", "c"⟩ (by decide)⟩

/-- C2: for a proper request and proper existing bookings, the conflict list
of `checkVenueConflict` is exactly the order-preserving filter of the input
by the half-open overlap predicate `aStart < bEnd AND bStart < aEnd`;
pointwise, the code's four-case disjunction agrees with that predicate. -/
theorem checkVenueConflict_conflicts_eq (newStart newEnd dayStart dayEnd : Int)
    (existingEvents : List ConflictEvent)
    (hreq : newStart < newEnd)
    (hprop : ∀ e ∈ existingEvents, e.start_time < e.end_time) :
    (checkVenueConflict newStart newEnd dayStart dayEnd (.ok existingEvents)).conflictingEvents
        = existingEvents.filter
            (fun e => decide (newStart < e.end_time) && decide (e.start_time < newEnd)) ∧
      ∀ e ∈ existingEvents,
        overlapsCheck newStart newEnd e.start_time e.end_time
          = (decide (newStart < e.end_time) && decide (e.start_time < newEnd)) := by
  have key : ∀ e ∈ existingEvents,
      overlapsCheck newStart newEnd e.start_time e.end_time
        = (decide (newStart < e.end_time) && decide (e.start_time < newEnd)) := by
    intro e he
    rw [Bool.eq_iff_iff, overlapsCheck_eq_true_iff hreq (hprop e he)]
    simp [Bool.and_eq_true, decide_eq_true_eq]
  refine ⟨?_, key⟩
  simp only [checkVenueConflict]
  exact List.filter_congr key

/-- C2, witness: request [11,13) against proper bookings [10,12) and
[13,14); hypotheses hold and the conclusion is instantiated. -/
theorem checkVenueConflict_conflicts_eq_witness :
    (checkVenueConflict 11 13 9 21
        (.ok [⟨"a", "A", 10, 12, "v", "c"⟩, ⟨"b", "B", 13, 14, "v", "c"⟩])).conflictingEvents
      = [(⟨"a", "A", 10, 12, "v", "c"⟩ : ConflictEvent), ⟨"b", "B", 13, 14, "v", "c"⟩].filter
          (fun e => decide ((11 : Int) < e.end_time) && decide (e.start_time < 13)) :=
  (checkVenueConflict_conflicts_eq 11 13 9 21 _ (by decide) (by decide)).1

/-- C3, code-bug evidence: whenever the booking-fetch step fails,
`checkVenueConflict` returns the ordinary result
`{ hasConflict := false, conflictingEvents := [], suggestedSlots := [] }` —
a silent "no conflict" — instead of propagating the failure as the spec
requires. -/
theorem checkVenueConflict_error_silent (newStart newEnd dayStart dayEnd : Int) :
    checkVenueConflict newStart newEnd dayStart dayEnd (.error ())
      = { hasConflict := false, conflictingEvents := [], suggestedSlots := [] } :=
  rfl

/-- C4, counterexample: the degenerate request with start = end = 12 is not
rejected with a validation error; `checkVenueConflict` returns an ordinary
result (here even reporting a conflict and suggesting slots).  No
validation-error path exists in the code. -/
theorem checkVenueConflict_no_validation_cex :
    checkVenueConflict 12 12 9 21 (.ok [⟨"a", "A", 11, 13, "v", "c"⟩])
      = { hasConflict := true, conflictingEvents := [⟨"a", "A", 11, 13, "v", "c"⟩],
          suggestedSlots := [⟨9, 9, true⟩, ⟨13, 13, true⟩] } := by
  decide

/-- C4, amended: the detector performs no start/end validation and cannot
fail; for every request — valid or degenerate — with an empty
existing-bookings list it returns the no-conflict result with empty
conflict and suggestion lists. -/
theorem checkVenueConflict_empty_ok (newStart newEnd dayStart dayEnd : Int) :
    checkVenueConflict newStart newEnd dayStart dayEnd (.ok [])
      = { hasConflict := false, conflictingEvents := [], suggestedSlots := [] } :=
  rfl

/-- C5: every slot returned by `generateSuggestedSlots` has
`end - start` exactly equal to `requestedEnd - requestedStart`. -/
theorem generateSuggestedSlots_duration (dayStart dayEnd requestedStart requestedEnd : Int)
    (existingEvents : List ConflictEvent) :
    ∀ slot ∈ generateSuggestedSlots dayStart dayEnd requestedStart requestedEnd existingEvents,
      slot.end_time - slot.start_time = requestedEnd - requestedStart := by
  intro slot hslot
  have h1 : slot ∈ suggestionCandidates dayStart dayEnd requestedStart requestedEnd
      existingEvents := List.mem_of_mem_filter (List.mem_of_mem_take hslot)
  have h2 := suggestionCandidates_dur dayStart dayEnd requestedStart requestedEnd
    existingEvents slot h1
  omega

/-- C5, witness: the slot [12,14) returned for request [11,13) against
booking [10,12) lasts exactly 13 − 11. -/
theorem generateSuggestedSlots_duration_witness :
    (⟨12, 14, true⟩ : TimeSlot).end_time - (⟨12, 14, true⟩ : TimeSlot).start_time = 13 - 11 :=
  generateSuggestedSlots_duration 9 21 11 13 [⟨"a", "A", 10, 12, "v", "c"⟩]
    ⟨12, 14, true⟩ (by decide)

/-- C6: every returned slot lies inside the working-hours window
(`dayStart ≤ slot.start` and `slot.end ≤ dayEnd`), and whenever the
requested duration exceeds the window length the result is empty. -/
theorem generateSuggestedSlots_window (dayStart dayEnd requestedStart requestedEnd : Int)
    (existingEvents : List ConflictEvent) :
    (∀ slot ∈ generateSuggestedSlots dayStart dayEnd requestedStart requestedEnd existingEvents,
        dayStart ≤ slot.start_time ∧ slot.end_time ≤ dayEnd) ∧
      (dayEnd - dayStart < requestedEnd - requestedStart →
        generateSuggestedSlots dayStart dayEnd requestedStart requestedEnd existingEvents = []) := by
  constructor
  · intro slot hslot
    have h2 := List.of_mem_filter (List.mem_of_mem_take hslot)
    simp only [withinWorkingHours, Bool.and_eq_true, decide_eq_true_eq] at h2
    omega
  · intro hlt
    have hnil : (suggestionCandidates dayStart dayEnd requestedStart requestedEnd
        existingEvents).filter (withinWorkingHours dayStart dayEnd) = [] := by
      rw [List.filter_eq_nil_iff]
      intro s hsmem hw
      have hd := suggestionCandidates_dur dayStart dayEnd requestedStart requestedEnd
        existingEvents s hsmem
      simp only [withinWorkingHours, Bool.and_eq_true, decide_eq_true_eq] at hw
      omega
    rw [generateSuggestedSlots, hnil]
    rfl

/-- C6, witness: a 13-hour request in a 12-hour window gets no suggestions. -/
theorem generateSuggestedSlots_window_witness :
    generateSuggestedSlots 9 21 0 13 [] = [] :=
  (generateSuggestedSlots_window 9 21 0 13 []).2 (by decide)

/-- C7: the suggester returns at most 3 slots, and its result is a prefix of
the window-filtered candidate list, which is built in the fixed priority
order before-first, between-gaps (chronological), after-last; the excess
candidates are silently dropped. -/
theorem generateSuggestedSlots_bounded (dayStart dayEnd requestedStart requestedEnd : Int)
    (existingEvents : List ConflictEvent) :
    (generateSuggestedSlots dayStart dayEnd requestedStart requestedEnd
        existingEvents).length ≤ 3 ∧
      ∃ rest, (suggestionCandidates dayStart dayEnd requestedStart requestedEnd
            existingEvents).filter (withinWorkingHours dayStart dayEnd)
          = generateSuggestedSlots dayStart dayEnd requestedStart requestedEnd existingEvents
            ++ rest := by
  constructor
  · rw [generateSuggestedSlots, List.length_take]
    exact Nat.min_le_left _ _
  · exact ⟨((suggestionCandidates dayStart dayEnd requestedStart requestedEnd
      existingEvents).filter (withinWorkingHours dayStart dayEnd)).drop 3,
      (List.take_append_drop 3 _).symm⟩

/-- C8: with no existing bookings and a proper request, the suggester
returns exactly the window-opening slot
`[dayStart, dayStart + duration)` when the requested interval lies within
the window, and the empty list otherwise. -/
theorem generateSuggestedSlots_noEvents (dayStart dayEnd requestedStart requestedEnd : Int)
    (hreq : requestedStart < requestedEnd) :
    generateSuggestedSlots dayStart dayEnd requestedStart requestedEnd []
      = if dayStart ≤ requestedStart ∧ requestedEnd ≤ dayEnd then
          [⟨dayStart, dayStart + (requestedEnd - requestedStart), true⟩]
        else [] := by
  have h1 : suggestionCandidates dayStart dayEnd requestedStart requestedEnd []
      = if requestedStart ≥ dayStart ∧ requestedEnd ≤ dayEnd then
          [⟨dayStart, dayStart + (requestedEnd - requestedStart), true⟩]
        else [] := rfl
  rw [generateSuggestedSlots, h1]
  simp only [ge_iff_le]
  by_cases hc : dayStart ≤ requestedStart ∧ requestedEnd ≤ dayEnd
  · rw [if_pos hc]
    have hw : withinWorkingHours dayStart dayEnd
        ⟨dayStart, dayStart + (requestedEnd - requestedStart), true⟩ = true := by
      simp only [withinWorkingHours, Bool.and_eq_true, decide_eq_true_eq]
      omega
    simp [hw]
  · rw [if_neg hc]
    rfl

/-- C8, witness: request [10,12) in window [9,21] with no bookings yields
the window-opening slot. -/
theorem generateSuggestedSlots_noEvents_witness :
    generateSuggestedSlots 9 21 10 12 []
      = if (9 : Int) ≤ 10 ∧ (12 : Int) ≤ 21 then [⟨9, 9 + (12 - 10), true⟩] else [] :=
  generateSuggestedSlots_noEvents 9 21 10 12 (by decide)

/-- C9: for proper intervals the overlap test of the conflict detector is
symmetric, although the four-case disjunction is not syntactically so. -/
theorem overlapsCheck_symm (aStart aEnd bStart bEnd : Int)
    (ha : aStart < aEnd) (hb : bStart < bEnd) :
    overlapsCheck aStart aEnd bStart bEnd = overlapsCheck bStart bEnd aStart aEnd := by
  rw [Bool.eq_iff_iff, overlapsCheck_eq_true_iff ha hb, overlapsCheck_eq_true_iff hb ha]
  constructor
  · exact fun h => ⟨h.2, h.1⟩
  · exact fun h => ⟨h.2, h.1⟩

/-- C9, witness: symmetry at the proper intervals [1,3) and [2,4). -/
theorem overlapsCheck_symm_witness :
    overlapsCheck 1 3 2 4 = overlapsCheck 2 4 1 3 :=
  overlapsCheck_symm 1 3 2 4 (by decide) (by decide)

/-- C10: every successful `checkVenueConflict` result is internally
consistent: `hasConflict` is true exactly when `conflictingEvents` is
non-empty, and when `hasConflict` is false the suggestion list is empty. -/
theorem checkVenueConflict_consistent (newStart newEnd dayStart dayEnd : Int)
    (existingEvents : List ConflictEvent) :
    ((checkVenueConflict newStart newEnd dayStart dayEnd (.ok existingEvents)).hasConflict
          = true ↔
        (checkVenueConflict newStart newEnd dayStart dayEnd
          (.ok existingEvents)).conflictingEvents ≠ []) ∧
      ((checkVenueConflict newStart newEnd dayStart dayEnd (.ok existingEvents)).hasConflict
          = false →
        (checkVenueConflict newStart newEnd dayStart dayEnd
          (.ok existingEvents)).suggestedSlots = []) := by
  simp only [checkVenueConflict]
  cases hf : existingEvents.filter (fun event =>
      overlapsCheck newStart newEnd event.start_time event.end_time) with
  | nil => simp [hf]
  | cons a t => simp [hf]

/-- C10, witness: a no-conflict run has an empty suggestion list. -/
theorem checkVenueConflict_consistent_witness :
    (checkVenueConflict 0 1 9 21 (.ok [])).suggestedSlots = [] :=
  (checkVenueConflict_consistent 0 1 9 21 []).2 (by decide)
